import Mathlib

/-!
Verification of the attendance web service in `app.py`.

The embedding models:
  * the attendance ledger CSV file as a list of three-field rows,
    initialised with the header row Name,Date,Time;
  * `check_and_log_attendance` as a pure function taking the clock values
    (formatted date and time strings) as explicit parameters;
  * `decode_image_from_base64` split into its pure parts (comma-prefix
    stripping, alpha-channel drop, channel reversal) with the external
    base64/PIL decoding represented by an environment value;
  * the `/recognize` request handler `recognize_face` as a function from a
    request environment and a ledger to a response and an updated ledger.
Distances are rationals: the source compares floats only against the
constant threshold 0.40, with no arithmetic, so ordered-field reasoning
is exact.
-/

namespace StableFace

/-- One row of the attendance CSV file.  Every row the program writes
(header included) has exactly three fields. -/
structure AttendanceRow where
  name : String
  date : String
  time : String
deriving DecidableEq, Repr

/-- The ledger file contents, as the list of its CSV rows in file order. -/
abbrev Ledger := List AttendanceRow

/-- Module initialisation: if the file does not exist it is created with
the single header row Name,Date,Time (`app.py` lines 20-23). -/
def initialLedger : Ledger := [⟨"Name", "Date", "Time"⟩]

/-- The duplicate scan of `check_and_log_attendance`: some row has
field 0 equal to `n` and field 1 equal to `d`. -/
def containsRecord (L : Ledger) (n d : String) : Bool :=
  L.any (fun r => r.name == n && r.date == d)

/-- Number of rows for the pair `(n, d)` in the ledger. -/
def countRecords (L : Ledger) (n d : String) : Nat :=
  L.countP (fun r => r.name == n && r.date == d)

/-- `check_and_log_attendance` (`app.py` lines 52-72): scan all rows for a
row matching `(name, today)`; if found return already_checked_in and leave
the file alone, otherwise append one row and return success.  The clock
reads `today` (strftime Y-m-d) and `time` (strftime H:M:S) are passed in
explicitly. -/
def check_and_log_attendance (name today time : String) (L : Ledger) :
    String × Ledger :=
  if containsRecord L name today then
    ("already_checked_in", L)
  else
    ("success", L ++ [⟨name, today, time⟩])

/-- A calendar date at day granularity. -/
structure CalDate where
  year : Nat
  month : Nat
  day : Nat
deriving DecidableEq, Repr

/-- Zero-pad a numeral to width 2, as strftime %m and %d do. -/
def pad2 (n : Nat) : String :=
  if n < 10 then "0" ++ toString n else toString n

/-- Zero-pad a numeral to width 4, as strftime %Y does. -/
def pad4 (n : Nat) : String :=
  if n < 10 then "000" ++ toString n
  else if n < 100 then "00" ++ toString n
  else if n < 1000 then "0" ++ toString n
  else toString n

/-- The Y-m-d date string `datetime.date.today().strftime` produces, as
stored in the ledger. -/
def formatDate (d : CalDate) : String :=
  pad4 d.year ++ "-" ++ pad2 d.month ++ "-" ++ pad2 d.day

/-- Run a sequence of check-in calls (each op carries name, date and clock
time) left to right, threading the ledger. -/
def runOps (ops : List (String × String × String)) (L : Ledger) : Ledger :=
  ops.foldl (fun acc op => (check_and_log_attendance op.1 op.2.1 op.2.2 acc).2) L

/-- The per-pair invariant of the ledger: at most one row per
(identity, date) pair. -/
def atMostOnePerDay (L : Ledger) : Prop :=
  ∀ n d, countRecords L n d ≤ 1

/-- Run a sequence of check-in calls from a ledger, returning the final
ledger together with the list of (name, formatted date) pairs whose call
returned success, i.e. the pairs that were appended to the file. -/
def runLog : List (String × CalDate × String) → Ledger →
    Ledger × List (String × String)
  | [], L => (L, [])
  | (n, D, t) :: ops, L =>
    let res := check_and_log_attendance n (formatDate D) t L
    let rest := runLog ops res.2
    (rest.1, if res.1 = "success" then (n, formatDate D) :: rest.2 else rest.2)

/-- One row of a DeepFace find result frame.  The three optional fields
model the presence or absence of the distance columns the source probes
for, in its probing order; `identity` is the matched gallery image path. -/
structure FindRow where
  distance : Option ℚ
  vggFaceCosine : Option ℚ
  cosine : Option ℚ
  identity : String
deriving DecidableEq, Repr

/-- The fixed match threshold 0.40 (`app.py` line 17). -/
def RECOGNITION_THRESHOLD : ℚ := 40 / 100

/-- The flexible distance check (`app.py` lines 131-138): default 100,
overridden by the first present column among distance, VGG-Face_cosine,
cosine. -/
def extractDistance (r : FindRow) : ℚ :=
  match r.distance with
  | some q => q
  | none =>
    match r.vggFaceCosine with
    | some q => q
    | none =>
      match r.cosine with
      | some q => q
      | none => 100

/-- The acceptance test (`app.py` line 141): distance at most the
threshold. -/
def acceptRow (r : FindRow) : Bool :=
  decide (extractDistance r ≤ RECOGNITION_THRESHOLD)

/-- The characters after the last slash of a character list. -/
def afterLastSlash : List Char → List Char
  | [] => []
  | c :: cs =>
    if cs.contains '/' then afterLastSlash cs
    else if c = '/' then cs
    else c :: cs

/-- os.path.basename on a POSIX path: the part after the last slash. -/
def basename (s : String) : String :=
  String.mk (afterLastSlash s.data)

/-- Index of the last dot of a character list, if any. -/
def lastDotIdx : List Char → Option Nat
  | [] => none
  | c :: cs =>
    match lastDotIdx cs with
    | some k => some (k + 1)
    | none => if c = '.' then some 0 else none

/-- os.path.splitext stem on a slash-free name: cut at the last dot unless
every character before it is itself a dot (leading dots carry no
extension). -/
def stemChars (p : List Char) : List Char :=
  match lastDotIdx p with
  | none => p
  | some k => if (p.take k).any (fun c => c != '.') then p.take k else p

/-- The identity label derived from a matched gallery path
(`app.py` lines 142-144): basename, then extension stripped. -/
def stemOf (path : String) : String :=
  String.mk (stemChars (basename path).data)

/-- The characters after the first comma of a character list. -/
def afterFirstComma : List Char → List Char
  | [] => []
  | c :: cs => if c = ',' then cs else afterFirstComma cs

/-- The base64 payload selected by `decode_image_from_base64`
(`app.py` lines 39-42): when a comma occurs, split at the first one and
keep only the part after it, otherwise the whole input. -/
def payloadOf (s : String) : String :=
  if s.data.contains ',' then String.mk (afterFirstComma s.data) else s

/-- A pixel array as np.array of a PIL image yields it: two dimensional
(no channel axis, e.g. a grayscale image) or three dimensional with
channel axis of size `c`. -/
inductive NpArr where
  | d2 (rows : List (List Int))
  | d3 (c : Nat) (rows : List (List (List Int)))
deriving DecidableEq, Repr

/-- The per-pixel effect of `app.py` lines 45-47: drop the channels past
the third when the channel axis has size 4, then reverse the channel
axis. -/
def processPixel (c : Nat) (px : List Int) : List Int :=
  (if c = 4 then px.take 3 else px).reverse

/-- Lines 45-47 applied across the whole array: every pixel in place. -/
def processArray (c : Nat) (rows : List (List (List Int))) :
    List (List (List Int)) :=
  rows.map (fun row => row.map (processPixel c))

/-- Lines 45-48 on a decoded array: `image_np.shape[2]` raises IndexError
on a two dimensional array; otherwise drop the alpha channel when the
channel axis has size 4 and reverse the channel axis. -/
def pixelStage : NpArr → Except Unit (List (List (List Int)))
  | .d2 _ => .error ()
  | .d3 c rows => .ok (processArray c rows)

/-- Outcome of the whole `decode_image_from_base64` call: the external
base64/PIL part is an environment value of type `Except Unit NpArr`, and
the array handling of lines 45-48 follows it. -/
def decodeStage (pil : Except Unit NpArr) :
    Except Unit (List (List (List Int))) :=
  match pil with
  | .error e => .error e
  | .ok arr => pixelStage arr

/-- The parsed request body: `request.get_json` either fails on an
unparseable body (the framework then answers 400 itself, per the error
taxonomy of the spec) or yields a JSON object whose image field may be
absent. -/
inductive ReqBody where
  | unparseable
  | parsed (image : Option String)

/-- Environment of one `/recognize` request: the parsed body, the outcome
of the external base64/PIL decoding of `payloadOf` of the image field, the
outcome of DeepFace.analyze (the per-face dominant emotions on success),
the outcome of DeepFace.find (one row list per detected face on success),
and the clock reads. -/
structure RecEnv where
  body : ReqBody
  pil : Except Unit NpArr
  analyze : Except Unit (List String)
  find : Except Unit (List (List FindRow))
  today : String
  timeNow : String

/-- The HTTP response of `/recognize`: a 400 with a JSON error body, the
framework 400 for an unparseable body, or a 200 carrying the two name
lists and the emotion label. -/
inductive Response where
  | badRequest (msg : String)
  | frameworkBadRequest
  | ok (newCheckIns alreadyPresent : List String) (emotion : String)
deriving DecidableEq, Repr

/-- The HTTP status code of a response. -/
def statusOf : Response → Nat
  | .badRequest _ => 400
  | .frameworkBadRequest => 400
  | .ok _ _ _ => 200

/-- The emotion block (`app.py` lines 97-111): neutral default, replaced
by the first dominant emotion when the analyze call returns a nonempty
list, kept on any exception. -/
def emotionOf : Except Unit (List String) → String
  | .error _ => "neutral"
  | .ok [] => "neutral"
  | .ok (e :: _) => e

/-- The match loop (`app.py` lines 126-145): for each nonempty result
frame take its first row, and keep its identity stem when the extracted
distance passes the threshold. -/
def recognizedNames (frames : List (List FindRow)) : List String :=
  frames.filterMap (fun df =>
    match df with
    | [] => none
    | best :: _ => if acceptRow best then some (stemOf best.identity) else none)

/-- The logging loop (`app.py` lines 151-160): check in each name in turn,
partitioning into the new and already-present lists by returned status. -/
def logAll (today timeNow : String) :
    List String → Ledger → List String × List String × Ledger
  | [], L => ([], [], L)
  | n :: ns, L =>
    let res := check_and_log_attendance n today timeNow L
    let rest := logAll today timeNow ns res.2
    if res.1 = "success" then (n :: rest.1, rest.2.1, rest.2.2)
    else if res.1 = "already_checked_in" then (rest.1, n :: rest.2.1, rest.2.2)
    else rest

/-- The `/recognize` handler (`app.py` lines 84-166): image field check,
decode, emotion analysis, identity match with soft failure, set-dedup of
the recognized names, logging, response.  Python set iteration order is
unspecified, so list-of-set is modelled by `List.dedup`; every property
proved about the result is order-independent. -/
def recognize_face (env : RecEnv) (L : Ledger) : Response × Ledger :=
  match env.body with
  | .unparseable => (.frameworkBadRequest, L)
  | .parsed none => (.badRequest "No image data provided", L)
  | .parsed (some _) =>
    match decodeStage env.pil with
    | .error _ => (.badRequest "Could not decode image", L)
    | .ok _ =>
      match env.find with
      | .error _ => (.ok [] [] "neutral", L)
      | .ok frames =>
        let names := (recognizedNames frames).dedup
        let res := logAll env.today env.timeNow names L
        (.ok res.1 res.2.1 (emotionOf env.analyze), res.2.2)

/-- A find row matching alice.jpg at exactly the threshold distance. -/
def aliceRow : FindRow :=
  ⟨some RECOGNITION_THRESHOLD, none, none, "known_faces/alice.jpg"⟩

/-- Concrete request whose find call raises after a successful happy
emotion analysis. -/
def envFindError : RecEnv :=
  ⟨.parsed (some "x"), .ok (.d3 3 [[[0, 0, 0]]]), .ok ["happy"], .error (),
    "2024-01-02", "09:00:00"⟩

/-- Concrete request with an unparseable body. -/
def envUnparseable : RecEnv :=
  ⟨.unparseable, .error (), .error (), .error (), "d", "t"⟩

/-- Concrete request without an image field. -/
def envNoImage : RecEnv :=
  ⟨.parsed none, .error (), .error (), .error (), "d", "t"⟩

/-- Concrete request whose image payload fails to decode. -/
def envBadDecode : RecEnv :=
  ⟨.parsed (some "x"), .error (), .error (), .error (), "d", "t"⟩

/-- Concrete request recognizing alice from one detected face. -/
def envOneAlice : RecEnv :=
  ⟨.parsed (some "x"), .ok (.d3 3 [[[0, 0, 0]]]), .ok ["happy"],
    .ok [[aliceRow]], "2024-01-02", "09:00:00"⟩

/-- Concrete request recognizing alice from two detected faces. -/
def envTwoAlice : RecEnv :=
  ⟨.parsed (some "x"), .ok (.d3 3 [[[0, 0, 0]]]), .ok ["happy"],
    .ok [[aliceRow], [aliceRow]], "2024-01-02", "09:00:00"⟩

/-- Concrete request whose image decodes to a 2-D grayscale array. -/
def envGray : RecEnv :=
  ⟨.parsed (some "x"), .ok (.d2 [[0]]), .error (), .error (), "d", "t"⟩

-- Basic lemmas about the duplicate scan and the row count.

lemma containsRecord_eq_true_iff (L : Ledger) (n d : String) :
    containsRecord L n d = true ↔ ∃ r ∈ L, r.name = n ∧ r.date = d := by
  simp [containsRecord, List.any_eq_true]

lemma countRecords_pos_iff (L : Ledger) (n d : String) :
    0 < countRecords L n d ↔ ∃ r ∈ L, r.name = n ∧ r.date = d := by
  simp [countRecords, List.countP_pos_iff]

lemma containsRecord_false_count (L : Ledger) (n d : String)
    (h : containsRecord L n d = false) : countRecords L n d = 0 := by
  by_contra hc
  have hpos : 0 < countRecords L n d := Nat.pos_of_ne_zero hc
  rw [countRecords_pos_iff] at hpos
  rw [← containsRecord_eq_true_iff] at hpos
  rw [h] at hpos
  exact Bool.false_ne_true hpos

lemma countRecords_append (L M : List AttendanceRow) (n d : String) :
    countRecords (L ++ M) n d = countRecords L n d + countRecords M n d := by
  simp [countRecords, List.countP_append]

lemma countRecords_single (r : AttendanceRow) (n d : String) :
    countRecords [r] n d = if r.name = n ∧ r.date = d then 1 else 0 := by
  rw [countRecords, List.countP_singleton]
  by_cases h : r.name = n ∧ r.date = d
  · simp [h.1, h.2]
  · rw [not_and_or] at h
    rcases h with h | h <;> simp [h]

lemma containsRecord_append (L M : List AttendanceRow) (n d : String) :
    containsRecord (L ++ M) n d = (containsRecord L n d || containsRecord M n d) := by
  simp [containsRecord, List.any_append]

lemma containsRecord_single_self (n d t : String) :
    containsRecord [⟨n, d, t⟩] n d = true := by
  simp [containsRecord]

lemma check_of_contains {L : Ledger} {n d : String} (t : String)
    (h : containsRecord L n d = true) :
    check_and_log_attendance n d t L = ("already_checked_in", L) := by
  simp [check_and_log_attendance, h]

lemma check_of_not_contains {L : Ledger} {n d : String} (t : String)
    (h : containsRecord L n d = false) :
    check_and_log_attendance n d t L = ("success", L ++ [⟨n, d, t⟩]) := by
  simp [check_and_log_attendance, h]

/-- C1: from a ledger holding no record for the pair, checking in twice
returns success then already_checked_in, exactly one row for the pair
remains, and the second call does not change the file. -/
theorem checkin_twice (L : Ledger) (I : String) (D : CalDate) (t1 t2 : String)
    (h : containsRecord L I (formatDate D) = false) :
    (check_and_log_attendance I (formatDate D) t1 L).1 = "success" ∧
    (check_and_log_attendance I (formatDate D) t2
      (check_and_log_attendance I (formatDate D) t1 L).2).1 = "already_checked_in" ∧
    countRecords
      (check_and_log_attendance I (formatDate D) t2
        (check_and_log_attendance I (formatDate D) t1 L).2).2 I (formatDate D) = 1 ∧
    (check_and_log_attendance I (formatDate D) t2
      (check_and_log_attendance I (formatDate D) t1 L).2).2 =
      (check_and_log_attendance I (formatDate D) t1 L).2 := by
  have h1 := check_of_not_contains t1 h
  have hc2 : containsRecord (L ++ [⟨I, formatDate D, t1⟩]) I (formatDate D) = true := by
    rw [containsRecord_append, containsRecord_single_self, Bool.or_true]
  refine ⟨by rw [h1], ?_, ?_, ?_⟩
  · rw [h1]
    simp only [check_of_contains t2 hc2]
  · rw [h1]
    simp only [check_of_contains t2 hc2]
    rw [countRecords_append, containsRecord_false_count L I (formatDate D) h,
      countRecords_single]
    simp
  · rw [h1]
    simp only [check_of_contains t2 hc2]

/-- C1 witness at a concrete ledger and pair. -/
theorem checkin_twice_witness :
    containsRecord initialLedger "alice" (formatDate ⟨2024, 1, 2⟩) = false ∧
    (check_and_log_attendance "alice" (formatDate ⟨2024, 1, 2⟩) "09:00:00"
      initialLedger).1 = "success" := by
  refine ⟨by decide, ?_⟩
  exact (checkin_twice initialLedger "alice" ⟨2024, 1, 2⟩ "09:00:00" "09:00:01"
    (by decide)).1

lemma check_preserves_atMostOne {L : Ledger} (n d t : String)
    (h : atMostOnePerDay L) :
    atMostOnePerDay (check_and_log_attendance n d t L).2 := by
  by_cases hc : containsRecord L n d = true
  · rw [check_of_contains t hc]
    exact h
  · rw [Bool.not_eq_true] at hc
    rw [check_of_not_contains t hc]
    intro n' d'
    rw [countRecords_append, countRecords_single]
    by_cases hmatch : (AttendanceRow.mk n d t).name = n' ∧
        (AttendanceRow.mk n d t).date = d'
    · have hn : n = n' := hmatch.1
      have hd : d = d' := hmatch.2
      rw [if_pos hmatch, ← hn, ← hd, containsRecord_false_count L n d hc]
    · rw [if_neg hmatch]
      simpa using h n' d'

lemma runOps_preserves_atMostOne (ops : List (String × String × String)) :
    ∀ L : Ledger, atMostOnePerDay L → atMostOnePerDay (runOps ops L) := by
  induction ops with
  | nil => intro L h; simpa [runOps] using h
  | cons op rest ih =>
    intro L h
    have hstep := check_preserves_atMostOne op.1 op.2.1 op.2.2 h
    simpa [runOps] using ih _ hstep

lemma initial_atMostOne : atMostOnePerDay initialLedger := by
  intro n d
  have : countRecords initialLedger n d ≤ (initialLedger : List AttendanceRow).length :=
    List.countP_le_length _
  simpa [initialLedger] using this

/-- C2: the at-most-one-row-per-(identity, date) invariant holds for the
header-only initial file and after any sequence of check-in calls. -/
theorem ledger_invariant :
    atMostOnePerDay initialLedger ∧
    ∀ ops : List (String × String × String),
      atMostOnePerDay (runOps ops initialLedger) := by
  exact ⟨initial_atMostOne, fun ops =>
    runOps_preserves_atMostOne ops initialLedger initial_atMostOne⟩

lemma formatDate_contains_dash (d : CalDate) : '-' ∈ (formatDate d).data := by
  have h : '-' ∈ ("-" : String).data := by decide
  simp only [formatDate, String.data_append, List.mem_append]
  tauto

/-- A formatted date string is never the literal header field "Date". -/
lemma formatDate_ne_header (d : CalDate) : formatDate d ≠ "Date" := by
  intro h
  have hme := formatDate_contains_dash d
  rw [h] at hme
  revert hme
  decide

lemma containsRecord_initial (I : String) (D : CalDate) :
    containsRecord initialLedger I (formatDate D) = false := by
  simp only [containsRecord, initialLedger, List.any_cons, List.any_nil,
    Bool.or_false, Bool.and_eq_false_iff]
  right
  simp only [beq_eq_false_iff_ne, ne_eq]
  intro h
  exact formatDate_ne_header D h.symm

lemma check_status_already_iff (n d t : String) (L : Ledger) :
    (check_and_log_attendance n d t L).1 = "already_checked_in" ↔
      containsRecord L n d = true := by
  by_cases hc : containsRecord L n d = true
  · simp [check_of_contains t hc, hc]
  · rw [Bool.not_eq_true] at hc
    rw [check_of_not_contains t hc]
    simp [hc]

lemma runLog_cons_of_contains {L : Ledger} {n : String} {D : CalDate}
    (t : String) (ops : List (String × CalDate × String))
    (hc : containsRecord L n (formatDate D) = true) :
    runLog ((n, D, t) :: ops) L = runLog ops L := by
  simp [runLog, check_of_contains t hc]

lemma runLog_cons_of_not_contains {L : Ledger} {n : String} {D : CalDate}
    (t : String) (ops : List (String × CalDate × String))
    (hc : containsRecord L n (formatDate D) = false) :
    runLog ((n, D, t) :: ops) L =
      ((runLog ops (L ++ [⟨n, formatDate D, t⟩])).1,
        (n, formatDate D) :: (runLog ops (L ++ [⟨n, formatDate D, t⟩])).2) := by
  simp [runLog, check_of_not_contains t hc]

lemma runLog_contains (ops : List (String × CalDate × String)) :
    ∀ (L : Ledger) (I ds : String),
      containsRecord (runLog ops L).1 I ds = true ↔
        (containsRecord L I ds = true ∨ (I, ds) ∈ (runLog ops L).2) := by
  induction ops with
  | nil => simp [runLog]
  | cons op rest ih =>
    intro L I ds
    obtain ⟨n, D, t⟩ := op
    by_cases hc : containsRecord L n (formatDate D) = true
    · rw [runLog_cons_of_contains t rest hc, ih]
    · rw [Bool.not_eq_true] at hc
      rw [runLog_cons_of_not_contains t rest hc]
      simp only
      rw [ih]
      rw [containsRecord_append]
      simp only [Bool.or_eq_true, containsRecord, List.any_cons, List.any_nil,
        Bool.or_false, Bool.and_eq_true, beq_iff_eq, List.mem_cons,
        Prod.mk.injEq]
      constructor
      · rintro (⟨h | ⟨hn, hd⟩⟩ | h)
        · exact .inl h
        · exact .inr (.inl ⟨hn.symm, hd.symm⟩)
        · exact .inr (.inr h)
      · rintro (h | ⟨hn, hd⟩ | h)
        · exact .inl (.inl h)
        · exact .inl (.inr ⟨hn.symm, hd.symm⟩)
        · exact .inr h

/-- C7: after any sequence of check-in calls starting from the header-only
file, re-scanning the written ledger reports a pair (I, D) as a duplicate
(so a further check-in would return already_checked_in) exactly when (I, D)
is one of the pairs whose call returned success, i.e. was appended. -/
theorem ledger_roundtrip (ops : List (String × CalDate × String))
    (I : String) (D : CalDate) (t : String) :
    (containsRecord (runLog ops initialLedger).1 I (formatDate D) = true ↔
      (I, formatDate D) ∈ (runLog ops initialLedger).2) ∧
    ((check_and_log_attendance I (formatDate D) t
        (runLog ops initialLedger).1).1 = "already_checked_in" ↔
      (I, formatDate D) ∈ (runLog ops initialLedger).2) := by
  have h1 := runLog_contains ops initialLedger I (formatDate D)
  rw [containsRecord_initial I D] at h1
  have hmain : containsRecord (runLog ops initialLedger).1 I (formatDate D) = true ↔
      (I, formatDate D) ∈ (runLog ops initialLedger).2 := by
    rw [h1]
    simp
  exact ⟨hmain, by rw [check_status_already_iff, hmain]⟩

/-- C4: the distance columns are probed in the order distance,
VGG-Face_cosine, cosine with the first present winning; with no column
present the default 100 applies and the row is never accepted; the
threshold comparison is inclusive at 0.40 and rejects anything strictly
above it. -/
theorem threshold_and_extraction :
    (∀ (q : ℚ) (v w : Option ℚ) (p : String),
        extractDistance ⟨some q, v, w, p⟩ = q) ∧
    (∀ (q : ℚ) (w : Option ℚ) (p : String),
        extractDistance ⟨none, some q, w, p⟩ = q) ∧
    (∀ (q : ℚ) (p : String), extractDistance ⟨none, none, some q, p⟩ = q) ∧
    (∀ p : String, extractDistance ⟨none, none, none, p⟩ = 100 ∧
        acceptRow ⟨none, none, none, p⟩ = false) ∧
    (∀ r : FindRow, extractDistance r = RECOGNITION_THRESHOLD →
        acceptRow r = true) ∧
    (∀ r : FindRow, RECOGNITION_THRESHOLD < extractDistance r →
        acceptRow r = false) := by
  refine ⟨fun q v w p => rfl, fun q w p => rfl, fun q p => rfl,
    fun p => ⟨rfl, ?_⟩, fun r h => ?_, fun r h => ?_⟩
  · rw [acceptRow]
    norm_num [extractDistance, RECOGNITION_THRESHOLD]
  · rw [acceptRow, h]
    simp
  · rw [acceptRow]
    simpa using not_le.mpr h

/-- C4 witness: a row at exactly the threshold is accepted, one strictly
above is rejected. -/
theorem threshold_and_extraction_witness :
    acceptRow ⟨some RECOGNITION_THRESHOLD, none, none, "known_faces/alice.jpg"⟩
      = true ∧
    acceptRow ⟨some (RECOGNITION_THRESHOLD + 1), none, none,
      "known_faces/bob.jpg"⟩ = false := by
  constructor
  · exact threshold_and_extraction.2.2.2.2.1 _ rfl
  · exact threshold_and_extraction.2.2.2.2.2 _ (lt_add_one RECOGNITION_THRESHOLD)

lemma afterFirstComma_append (a b : List Char) (h : ',' ∉ a) :
    afterFirstComma (a ++ ',' :: b) = b := by
  induction a with
  | nil => simp [afterFirstComma]
  | cons c cs ih =>
    have hc : ¬c = ',' := fun e => h (by rw [e]; exact List.mem_cons_self _ _)
    have hcs : ',' ∉ cs := fun hm => h (List.mem_cons_of_mem c hm)
    simp [afterFirstComma, hc, ih hcs]

/-- C8: the payload handed to base64 decoding is exactly the part after
the first comma when one occurs and the whole input otherwise; a 4-channel
pixel keeps its first three channels and gets its channel order reversed,
a 3-channel pixel only gets reversed; and every pixel of the array is
transformed in place, all positions preserved. -/
theorem decode_pure_parts :
    (∀ a b : List Char, ',' ∉ a →
        payloadOf (String.mk (a ++ ',' :: b)) = String.mk b) ∧
    (∀ s : String, ',' ∉ s.data → payloadOf s = s) ∧
    (∀ r g b al : Int, processPixel 4 [r, g, b, al] = [b, g, r]) ∧
    (∀ r g b : Int, processPixel 3 [r, g, b] = [b, g, r]) ∧
    (∀ (c : Nat) (rows : List (List (List Int))) (i j : Nat),
        ((processArray c rows)[i]?.bind (fun row => row[j]?)) =
          (rows[i]?.bind (fun row => row[j]?)).map (processPixel c)) := by
  refine ⟨fun a b h => ?_, fun s h => ?_, fun r g b al => rfl, fun r g b => rfl,
    fun c rows i j => ?_⟩
  · have hmem : (a ++ ',' :: b).contains ',' = true := by
      simp [List.contains]
    simp [payloadOf, hmem, afterFirstComma_append a b h]
  · have hmem : s.data.contains ',' = false := by
      simpa using h
    simp [payloadOf, hmem, h]
  · cases hrow : rows[i]? with
    | none => simp [processArray, List.getElem?_map, hrow]
    | some row => simp [processArray, List.getElem?_map, hrow]

/-- C8 witness: a concrete data-URI style prefix is stripped, and a
concrete 4-channel pixel becomes its 3-channel reversal. -/
theorem decode_pure_parts_witness :
    payloadOf (String.mk (['d', 'a', 't', 'a'] ++ ',' :: ['Q', 'Q'])) =
      String.mk ['Q', 'Q'] ∧
    processPixel 4 [10, 20, 30, 40] = [30, 20, 10] :=
  ⟨decode_pure_parts.1 ['d', 'a', 't', 'a'] ['Q', 'Q'] (by decide),
    decode_pure_parts.2.2.1 10 20 30 40⟩

/-- C3: whenever the match call raises, the handler answers with status
200, both name lists empty and emotion neutral whatever the emotion
analysis produced, and the ledger is untouched. -/
theorem find_failure_soft (env : RecEnv) (L : Ledger) (s : String)
    (img : List (List (List Int)))
    (hb : env.body = .parsed (some s))
    (hd : decodeStage env.pil = .ok img)
    (hf : env.find = .error ()) :
    recognize_face env L = (.ok [] [] "neutral", L) ∧
    statusOf (recognize_face env L).1 = 200 := by
  have hmain : recognize_face env L = (.ok [] [] "neutral", L) := by
    simp [recognize_face, hb, hd, hf]
  exact ⟨hmain, by rw [hmain]; rfl⟩

/-- C3 witness: a request whose emotion analysis succeeded with label
happy but whose find call raised gets the neutral empty 200 response and
leaves the ledger alone. -/
theorem find_failure_soft_witness :
    recognize_face envFindError initialLedger =
      (.ok [] [] "neutral", initialLedger) :=
  (find_failure_soft envFindError initialLedger "x" _ rfl rfl rfl).1

/-- C5: a missing image field gives exactly the 400 No image data provided
response, a failing decode gives exactly the 400 Could not decode image
response, an unparseable body gives the framework 400, and in each case
the ledger is unchanged. -/
theorem client_input_errors (env : RecEnv) (L : Ledger) :
    (env.body = .unparseable →
      recognize_face env L = (.frameworkBadRequest, L) ∧
        statusOf .frameworkBadRequest = 400) ∧
    (env.body = .parsed none →
      recognize_face env L = (.badRequest "No image data provided", L) ∧
        statusOf (.badRequest "No image data provided") = 400) ∧
    (∀ (s : String) (e : Unit), env.body = .parsed (some s) →
      decodeStage env.pil = .error e →
      recognize_face env L = (.badRequest "Could not decode image", L) ∧
        statusOf (.badRequest "Could not decode image") = 400) := by
  refine ⟨fun hb => ⟨by simp [recognize_face, hb], rfl⟩,
    fun hb => ⟨by simp [recognize_face, hb], rfl⟩,
    fun s e hb hd => ⟨by simp [recognize_face, hb, hd], rfl⟩⟩

/-- C5 witness: the three client-error cases at concrete requests. -/
theorem client_input_errors_witness :
    recognize_face envUnparseable initialLedger =
      (.frameworkBadRequest, initialLedger) ∧
    recognize_face envNoImage initialLedger =
      (.badRequest "No image data provided", initialLedger) ∧
    recognize_face envBadDecode initialLedger =
      (.badRequest "Could not decode image", initialLedger) :=
  ⟨((client_input_errors envUnparseable initialLedger).1 rfl).1,
    ((client_input_errors envNoImage initialLedger).2.1 rfl).1,
    ((client_input_errors envBadDecode initialLedger).2.2 "x" () rfl rfl).1⟩

lemma logAll_cons_of_contains {L : Ledger} {n : String} (today tm : String)
    (ns : List String) (h : containsRecord L n today = true) :
    logAll today tm (n :: ns) L =
      ((logAll today tm ns L).1, n :: (logAll today tm ns L).2.1,
        (logAll today tm ns L).2.2) := by
  simp [logAll, check_of_contains tm h]

lemma logAll_cons_of_not_contains {L : Ledger} {n : String} (today tm : String)
    (ns : List String) (h : containsRecord L n today = false) :
    logAll today tm (n :: ns) L =
      (n :: (logAll today tm ns (L ++ [⟨n, today, tm⟩])).1,
        (logAll today tm ns (L ++ [⟨n, today, tm⟩])).2.1,
        (logAll today tm ns (L ++ [⟨n, today, tm⟩])).2.2) := by
  simp [logAll, check_of_not_contains tm h]

lemma logAll_count (today tm : String) (ns : List String) :
    ∀ (L : Ledger) (m : String),
      (logAll today tm ns L).1.count m + (logAll today tm ns L).2.1.count m =
        ns.count m := by
  induction ns with
  | nil => intro L m; simp [logAll]
  | cons n ns ih =>
    intro L m
    by_cases hc : containsRecord L n today = true
    · rw [logAll_cons_of_contains today tm ns hc]
      simp only [List.count_cons]
      have := ih L m
      omega
    · rw [Bool.not_eq_true] at hc
      rw [logAll_cons_of_not_contains today tm ns hc]
      simp only [List.count_cons]
      have := ih (L ++ [⟨n, today, tm⟩]) m
      omega

lemma logAll_records (today tm : String) (ns : List String) :
    ∀ (L : Ledger) (n d : String),
      countRecords (logAll today tm ns L).2.2 n d ≤
        countRecords L n d + ns.count n := by
  induction ns with
  | nil => intro L n d; simp [logAll]
  | cons m ns ih =>
    intro L n d
    by_cases hc : containsRecord L m today = true
    · rw [logAll_cons_of_contains today tm ns hc]
      have := ih L n d
      simp only [List.count_cons]
      omega
    · rw [Bool.not_eq_true] at hc
      rw [logAll_cons_of_not_contains today tm ns hc]
      have h1 := ih (L ++ [⟨m, today, tm⟩]) n d
      have h2 : countRecords (L ++ [⟨m, today, tm⟩]) n d ≤
          countRecords L n d + (if m = n then 1 else 0) := by
        rw [countRecords_append, countRecords_single]
        by_cases hm : (⟨m, today, tm⟩ : AttendanceRow).name = n ∧
            (⟨m, today, tm⟩ : AttendanceRow).date = d
        · rw [if_pos hm, if_pos hm.1]
        · rw [if_neg hm]
          omega
      simp only [List.count_cons, beq_iff_eq]
      omega

lemma logAll_mem_union (today tm : String) (ns : List String) (L : Ledger)
    (m : String) :
    (m ∈ (logAll today tm ns L).1 ∨ m ∈ (logAll today tm ns L).2.1) ↔
      m ∈ ns := by
  have h := logAll_count today tm ns L m
  constructor
  · rintro (hm | hm)
    · have h1 : (logAll today tm ns L).1.count m ≠ 0 := fun h0 =>
        absurd hm (List.count_eq_zero.mp h0)
      have h2 : ns.count m ≠ 0 := by omega
      by_contra hns
      exact h2 (List.count_eq_zero.mpr hns)
    · have h1 : (logAll today tm ns L).2.1.count m ≠ 0 := fun h0 =>
        absurd hm (List.count_eq_zero.mp h0)
      have h2 : ns.count m ≠ 0 := by omega
      by_contra hns
      exact h2 (List.count_eq_zero.mpr hns)
  · intro hm
    by_contra hboth
    obtain ⟨h1, h2⟩ := not_or.mp hboth
    have c1 : (logAll today tm ns L).1.count m = 0 := List.count_eq_zero.mpr h1
    have c2 : (logAll today tm ns L).2.1.count m = 0 := List.count_eq_zero.mpr h2
    have : ns.count m = 0 := by omega
    exact (List.count_eq_zero.mp this) hm

lemma logAll_nodup (today tm : String) (ns : List String) (L : Ledger)
    (hnd : ns.Nodup) :
    (logAll today tm ns L).1.Nodup ∧ (logAll today tm ns L).2.1.Nodup := by
  constructor
  · rw [List.nodup_iff_count_le_one]
    intro a
    have h := logAll_count today tm ns L a
    have h2 := List.nodup_iff_count_le_one.mp hnd a
    omega
  · rw [List.nodup_iff_count_le_one]
    intro a
    have h := logAll_count today tm ns L a
    have h2 := List.nodup_iff_count_le_one.mp hnd a
    omega

/-- C9: when a request reaches the logging stage, the two response lists
are duplicate-free and disjoint, and together they hold exactly the
recognized identities of the request. -/
theorem response_partition (env : RecEnv) (L : Ledger) (s : String)
    (img : List (List (List Int))) (frames : List (List FindRow))
    (hb : env.body = .parsed (some s))
    (hd : decodeStage env.pil = .ok img)
    (hf : env.find = .ok frames) :
    ∃ (new alr : List String) (L2 : Ledger),
      recognize_face env L = (.ok new alr (emotionOf env.analyze), L2) ∧
      new.Nodup ∧ alr.Nodup ∧
      (∀ n, ¬(n ∈ new ∧ n ∈ alr)) ∧
      (∀ n, (n ∈ new ∨ n ∈ alr) ↔ n ∈ recognizedNames frames) := by
  refine ⟨(logAll env.today env.timeNow ((recognizedNames frames).dedup) L).1,
    (logAll env.today env.timeNow ((recognizedNames frames).dedup) L).2.1,
    (logAll env.today env.timeNow ((recognizedNames frames).dedup) L).2.2,
    by simp [recognize_face, hb, hd, hf],
    (logAll_nodup env.today env.timeNow _ L (List.nodup_dedup _)).1,
    (logAll_nodup env.today env.timeNow _ L (List.nodup_dedup _)).2,
    fun n hn => ?_, fun n => ?_⟩
  · obtain ⟨h1, h2⟩ := hn
    have hc := logAll_count env.today env.timeNow
      ((recognizedNames frames).dedup) L n
    have hd1 : ((recognizedNames frames).dedup).count n ≤ 1 :=
      List.nodup_iff_count_le_one.mp (List.nodup_dedup _) n
    have c1 : (logAll env.today env.timeNow ((recognizedNames frames).dedup)
        L).1.count n ≠ 0 := fun h0 => absurd h1 (List.count_eq_zero.mp h0)
    have c2 : (logAll env.today env.timeNow ((recognizedNames frames).dedup)
        L).2.1.count n ≠ 0 := fun h0 => absurd h2 (List.count_eq_zero.mp h0)
    omega
  · rw [logAll_mem_union env.today env.timeNow _ L n, List.mem_dedup]

/-- C9 witness: a concrete one-face request reaching the logging stage. -/
theorem response_partition_witness :
    ∃ (new alr : List String) (L2 : Ledger),
      recognize_face envOneAlice initialLedger =
        (.ok new alr (emotionOf (.ok ["happy"])), L2) ∧
      new.Nodup ∧ alr.Nodup ∧
      (∀ n, ¬(n ∈ new ∧ n ∈ alr)) ∧
      (∀ n, (n ∈ new ∨ n ∈ alr) ↔ n ∈ recognizedNames [[aliceRow]]) :=
  response_partition envOneAlice initialLedger "x" _ _ rfl rfl rfl

lemma acceptRow_at_threshold (p : String) :
    acceptRow ⟨some RECOGNITION_THRESHOLD, none, none, p⟩ = true := by
  simp [acceptRow, extractDistance]

/-- C6: a name recognized in the request, however many detected faces
produced it, appears exactly once across the two response lists, and the
request appends at most one ledger row for it. -/
theorem request_dedup_idempotent (env : RecEnv) (L : Ledger) (s : String)
    (img : List (List (List Int))) (frames : List (List FindRow))
    (hb : env.body = .parsed (some s))
    (hd : decodeStage env.pil = .ok img)
    (hf : env.find = .ok frames)
    (n : String) (hn : n ∈ recognizedNames frames) :
    ∃ (new alr : List String) (L2 : Ledger),
      recognize_face env L = (.ok new alr (emotionOf env.analyze), L2) ∧
      (new ++ alr).count n = 1 ∧
      countRecords L2 n env.today ≤ countRecords L n env.today + 1 := by
  have hone : ((recognizedNames frames).dedup).count n = 1 :=
    List.count_eq_one_of_mem (List.nodup_dedup _) (List.mem_dedup.mpr hn)
  refine ⟨(logAll env.today env.timeNow ((recognizedNames frames).dedup) L).1,
    (logAll env.today env.timeNow ((recognizedNames frames).dedup) L).2.1,
    (logAll env.today env.timeNow ((recognizedNames frames).dedup) L).2.2,
    by simp [recognize_face, hb, hd, hf], ?_, ?_⟩
  · rw [List.count_append]
    have h := logAll_count env.today env.timeNow
      ((recognizedNames frames).dedup) L n
    omega
  · have h := logAll_records env.today env.timeNow
      ((recognizedNames frames).dedup) L n env.today
    omega

/-- C6 witness: two faces matching the same gallery image alice.jpg in one
request yield one occurrence of alice and at most one appended row. -/
theorem request_dedup_idempotent_witness :
    ∃ (new alr : List String) (L2 : Ledger),
      recognize_face envTwoAlice initialLedger =
        (.ok new alr (emotionOf (.ok ["happy"])), L2) ∧
      (new ++ alr).count "alice" = 1 ∧
      countRecords L2 "alice" "2024-01-02" ≤
        countRecords initialLedger "alice" "2024-01-02" + 1 :=
  request_dedup_idempotent envTwoAlice initialLedger "x" _ _ rfl rfl rfl "alice"
    (by simp [recognizedNames, aliceRow, acceptRow_at_threshold]; decide)

/-- C10 counterexample: on a three dimensional array whose channel axis
has size 2 the decoder succeeds, so its totality does not require 3 or 4
channels; the claim as stated (total only under 3 or 4 channels) fails
here. -/
theorem decoder_total_on_two_channels :
    pixelStage (.d3 2 [[[5, 7]]]) = .ok [[[7, 5]]] := rfl

/-- C10 amended: a decoded array without a channel axis (2-D, e.g.
grayscale) makes the decoder raise, which the handler reports as the 400
Could not decode image response with the ledger untouched; on any three
dimensional array the decoder is total. -/
theorem decoder_missing_axis (env : RecEnv) (L : Ledger) (s : String)
    (rows : List (List Int))
    (hb : env.body = .parsed (some s))
    (hp : env.pil = .ok (.d2 rows)) :
    decodeStage env.pil = .error () ∧
    recognize_face env L = (.badRequest "Could not decode image", L) ∧
    statusOf (.badRequest "Could not decode image") = 400 ∧
    (∀ (c : Nat) (rows3 : List (List (List Int))),
      pixelStage (.d3 c rows3) = .ok (processArray c rows3)) := by
  have hd : decodeStage env.pil = .error () := by rw [hp]; rfl
  exact ⟨hd, by simp [recognize_face, hb, hd], rfl, fun c rows3 => rfl⟩

/-- C10 witness: a concrete 2-D decode gives the 400 response. -/
theorem decoder_missing_axis_witness :
    recognize_face envGray initialLedger =
      (.badRequest "Could not decode image", initialLedger) :=
  (decoder_missing_axis envGray initialLedger "x" [[0]] rfl rfl).2.1

end StableFace
